import Mathlib

/-!
# Transpose sinking through Concat and Interpolate

A shallow embedding of the four matcher passes of
`transpose_sinking_concat.cpp` and `transpose_sinking_interpolate.cpp`.

The passes rewrite the neighbourhood of one matched node (the "main node"):
the producers of its inputs, its own attributes, and the consumers of its
output.  That neighbourhood is the state threaded through the model.
A pass returns `none` where the C++ has no defined result (an unchecked
`operator[]` past the end, a null node pointer dereferenced), and
`some (b, g)` for a callback that returned `b` leaving the graph `g`.

The graph library (nodes, constants, shape inference) and the helpers of
`transpose_sinking_utils` are not part of the translated files; they are
modelled from the specification and marked as such.
-/

namespace TransposeSinking

/-! ## Data model -/

/-- Axis sequence `ov::AxisVector` (a `std::vector<size_t>`). -/
abbrev AxisVector := List Nat

/-- Values of a permutation constant: a permutation of `0 .. rank-1`. -/
def IsPermutation (order : AxisVector) : Prop :=
  List.Perm order (List.range order.length)

instance (order : AxisVector) : Decidable (IsPermutation order) := by
  unfold IsPermutation; infer_instance

/-- Producer of a tensor, as seen from an input port.  A `transpose` carries its
data input and the values of the permutation constant on its second input. -/
inductive Value where
  | parameter (id : Nat) (rank : Option Nat)
  | constant (shape : List Nat) (vals : List Int)
  | transpose (data : Value) (order : List Int)
  | gather (data : Value) (indices : Value) (axis : Value)
  deriving DecidableEq, Repr

/-- Consumer of the main node's output.  A `transpose` consumer carries its display
name, the values of its permutation constant, its sinking-eligibility tag and
its own consumers. -/
inductive Consumer where
  | other (id : Nat)
  | transpose (name : String) (order : List Int) (sinking : Bool)
      (consumers : List Consumer)

/-- Static padding attributes of `op::v4::Interpolate::InterpolateAttrs`
(`std::vector<size_t>`); the remaining attributes are never touched by the
passes. -/
structure InterpolateAttrs where
  pads_begin : List Nat
  pads_end : List Nat
  deriving DecidableEq, Repr

/-- Operation kind of the main node with its axis-bearing attributes.  `Concat`
holds `m_axis` (`get_axis`/`set_axis`) and `m_concat_axis`
(`get_concatenation_axis`/`set_concatenation_axis`). -/
inductive Op where
  | Concat (axis : Int) (concatenation_axis : Int)
  | Interpolate (attrs : InterpolateAttrs)
  | Other
  deriving DecidableEq, Repr

/-- The main node: display name, operation, input producers, inferred output rank
(`none` when dynamic) and the consumers of its single output. -/
structure Node where
  name : String
  op : Op
  inputs : List Value
  output_rank : Option Nat
  consumers : List Consumer

/-- Reference to a node created by a pass: the transpose now feeding input port `i`,
or the transpose now at consumer slot `i` of the output. -/
inductive NodeRef where
  | input (i : Nat)
  | output (i : Nat)
  deriving DecidableEq, Repr

/-- State a pass can change: the main node with its neighbourhood, and the nodes
handed to `register_new_node`. -/
structure Graph where
  main_node : Node
  registered : List NodeRef

/-- Record `TransposeInputsInfo`: the reference transpose, its permutation constant and
the input port it feeds. -/
structure TransposeInputsInfo where
  transpose : Value
  transpose_const : List Int
  input_idx : Nat
  deriving DecidableEq, Repr

/-! ## Graph library and sinking utilities (not in the translated files) -/

/-- Modelled from the spec: `Constant::get_axis_vector_val`, which is not in the
translated files; it reads the permutation constant's values as an axis
vector. -/
def get_axis_vector_val (vals : List Int) : AxisVector :=
  vals.map Int.toNat

/-- Modelled from the spec: `ReverseTransposeOrder` (spec `invert`), which is not in
the translated files: "returns `order'` such that `order'[order[i]] == i`
for all i".  Slot `j` of the result is the position of `j` in
`axis_order`. -/
def ReverseTransposeOrder (axis_order : AxisVector) : AxisVector :=
  (List.range axis_order.length).map fun j => axis_order.indexOf j

/-- Modelled from the spec: static rank of a produced tensor (`none` when
dynamic); a Transpose keeps the rank of its data, a Gather has rank
`rank data + rank indices - 1`. -/
def rank : Value → Option Nat
  | .parameter _ r => r
  | .constant shape _ => some shape.length
  | .transpose data _ => rank data
  | .gather data indices _ =>
    match rank data, rank indices with
    | some rd, some ri => some (rd + ri - 1)
    | _, _ => none

/-- Test `as_type_ptr<Transpose>` / `dynamic_pointer_cast<Transpose>` on a producer. -/
def as_Transpose : Value → Option (Value × List Int)
  | .transpose data order => some (data, order)
  | _ => none

/-- Test `as_type_ptr<Constant>` on a producer. -/
def as_Constant : Value → Option (List Int)
  | .constant _ vals => some vals
  | _ => none

/-- First input of the node producing a value (`get_node()->input_value(0)`); producers
without inputs have none. -/
def input_value_0 : Value → Option Value
  | .transpose data _ => some data
  | .gather data _ _ => some data
  | _ => none

/-- Edge rewiring `input(i).replace_source_output(v)`. -/
def replace_source_output (n : Node) (i : Nat) (v : Value) : Node :=
  { n with inputs := n.inputs.set i v }

/-- Scan of the inputs from port `i` on for the first Transpose producer. -/
def firstTransposeFrom : List Value → Nat → Option TransposeInputsInfo
  | [], _ => none
  | .transpose data order :: _, i => some ⟨.transpose data order, order, i⟩
  | _ :: vs, i => firstTransposeFrom vs (i + 1)

/-- Modelled from the spec: `GetFirstTransposeInput` (spec
`SelectReferenceTranspose`), not in the translated files: "picks the first
input edge whose producer is a Transpose node". -/
def GetFirstTransposeInput (n : Node) : Option TransposeInputsInfo :=
  firstTransposeFrom n.inputs 0

/-- Modelled from the spec: `IfNodeHasTransposeInputs` (spec `HasTransposeInput`),
not in the translated files: "true if at least one input is produced by a
Transpose node". -/
def IfNodeHasTransposeInputs (n : Node) : Bool :=
  n.inputs.any fun v => (as_Transpose v).isSome

/-- Modelled from the spec: `has_static_rank` on the main node's output. -/
def has_static_rank (n : Node) : Bool :=
  n.output_rank.isSome

/-- Modelled from the spec: `has_static_rank` on the output of a transpose that reads
the main node's output; a Transpose keeps the rank of its data. -/
def transpose_has_static_rank (n : Node) : Bool :=
  has_static_rank n

/-- Modelled from the spec: `is_sinking_node` (spec `IsSinkingEligible`), not in the
translated files: "reads the node's eligibility tag". -/
def is_sinking_node (sinking : Bool) : Bool :=
  sinking

/-- Permutation constant of a transpose consumer. -/
def Consumer.order? : Consumer → Option (List Int)
  | .transpose _ order _ _ => some order
  | .other _ => none

/-- Modelled from the spec: `HasSameOutputTransposeNodes` (spec
`HasUniformOutputTranspose`), not in the translated files: "every consumer
of every output is a Transpose node and all such Transpose nodes share an
identical permutation constant". -/
def HasSameOutputTransposeNodes (n : Node) : Bool :=
  match n.consumers with
  | [] => false
  | c :: cs =>
    match c.order? with
    | none => false
    | some order => cs.all fun c' => c'.order? == some order

/-- Modelled from the spec: `UpdateInputTransposes` (spec
`NormalizeInputsToReferenceFrame`), not in the translated files.  The
reference transpose is detached, every other input receives a transpose
with the same permutation constant; it "fails (no mutation, reports
false)" without a reference transpose or when some input's rank is dynamic
or differs from the permutation length. -/
def UpdateInputTransposes (n : Node) (info : Option TransposeInputsInfo) : Bool × Node :=
  match info with
  | none => (false, n)
  | some info =>
    if n.inputs.all fun v => rank v == some info.transpose_const.length then
      (true, { n with inputs := n.inputs.enum.map fun iv =>
        if iv.1 = info.input_idx then (input_value_0 iv.2).getD iv.2
        else .transpose iv.2 info.transpose_const })
    else (false, n)

/-- Modelled from the spec: `Node::validate_and_infer_types`, not in the translated
files.  The specification describes it as the "external type-inference
call" by which the "computed shape/rank" of the output is "filled", and
names no other effect; the model recomputes the output rank from input 0
and leaves the attributes as they are. -/
def validate_and_infer_types (n : Node) : Node :=
  { n with output_rank := (n.inputs.head?).bind rank }

/-- Modelled from the spec: `sink_forward::InsertOutputTransposes`, not in the
translated files: a new Transpose with the reference permutation constant
is put between the node's output and its consumers and marked eligible.
Returns the new nodes. -/
def InsertOutputTransposes (n : Node) (info : TransposeInputsInfo) : Node × List NodeRef :=
  ({ n with consumers := [.transpose "" info.transpose_const true n.consumers] }, [.output 0])

/-- Modelled from the spec: `UpdateForwardSinkingAbility`, not in the translated
files: the new output transpose is marked forward-sinking-eligible. -/
def UpdateForwardSinkingAbility (n : Node) : NodeRef → Node
  | .output i =>
    { n with consumers := n.consumers.modify (fun c =>
        match c with
        | .transpose nm order _ cs => .transpose nm order true cs
        | c => c) i }
  | .input _ => n

/-- Modelled from the spec: `sink_backward::InsertTransposeBeforeNode` (spec
`InsertInputTranspose`), not in the translated files: "prepends a Transpose
with the given permutation constant on the specified input indices
(default: all)".  Returns the new nodes. -/
def InsertTransposeBeforeNode (n : Node) (order : List Int) (input_indexes : Option (List Nat)) :
    Node × List NodeRef :=
  let idxs := input_indexes.getD (List.range n.inputs.length)
  ({ n with inputs := n.inputs.enum.map fun iv =>
      if iv.1 ∈ idxs then .transpose iv.2 order else iv.2 },
   (idxs.filter fun i => i < n.inputs.length).map NodeRef.input)

/-- Modelled from the spec: `RemoveSingleOutputConsumers` (spec
`RemoveRedundantOutputConsumers`), not in the translated files: the
transpose consumers are detached and their consumers read the node's
output directly. -/
def RemoveSingleOutputConsumers (n : Node) : Node :=
  { n with consumers := n.consumers.flatMap fun c =>
      match c with
      | .transpose _ _ _ cs => cs
      | .other id => [.other id] }

/-- Modelled from the spec: `SwapNames`, not in the translated files: exchanges the
display names of two nodes. -/
def SwapNames (a b : String) : String × String := (b, a)

/-- Setter `Concat::set_axis`. -/
def set_axis (n : Node) (axis : Int) : Node :=
  match n.op with
  | .Concat _ c => { n with op := .Concat axis c }
  | _ => n

/-- Setter `Concat::set_concatenation_axis`. -/
def set_concatenation_axis (n : Node) (concatenation_axis : Int) : Node :=
  match n.op with
  | .Concat a _ => { n with op := .Concat a concatenation_axis }
  | _ => n

/-- Getter `Concat::get_axis`. -/
def get_axis (n : Node) : Option Int :=
  match n.op with
  | .Concat a _ => some a
  | _ => none

/-- Getter `Concat::get_concatenation_axis`. -/
def get_concatenation_axis (n : Node) : Option Int :=
  match n.op with
  | .Concat _ c => some c
  | _ => none

/-- Getter `Interpolate::get_attrs`. -/
def get_attrs (n : Node) : Option InterpolateAttrs :=
  match n.op with
  | .Interpolate attrs => some attrs
  | _ => none

/-- Registration of the new nodes, each followed by `UpdateForwardSinkingAbility`
(the loop body of the forward passes). -/
def registerForward (g : Graph) (new_nodes : List NodeRef) : Graph :=
  new_nodes.foldl (fun g r =>
    { main_node := UpdateForwardSinkingAbility g.main_node r,
      registered := g.registered ++ [r] }) g

/-- Modelled from the spec: evaluation of `Gather(data, indices, axis = 0)` on a
one-dimensional `data` (the opset operation is not in the translated
files): element `i` of the result is `data[indices[i]]`; an index outside
`[0, size)` has no value in the model. -/
def gather_values (data : List Int) : List Int → Option (List Int)
  | [] => some []
  | i :: is =>
    if 0 ≤ i then
      match data[i.toNat]?, gather_values data is with
      | some v, some vs => some (v :: vs)
      | _, _ => none
    else none

/-- Modelled from the spec: compile-time value of a one-dimensional integer tensor,
given the values `env` of the graph parameters.  Only what an
axes-selection input is built from is evaluated; a Transpose is the
identity on a one-dimensional tensor and is not evaluated otherwise. -/
def eval (env : Nat → List Int) : Value → Option (List Int)
  | .parameter id _ => some (env id)
  | .constant _ vals => some vals
  | .transpose data order => if order = [0] then eval env data else none
  | .gather data indices axis =>
    match eval env data, eval env indices, eval env axis with
    | some d, some i, some a => if a = [0] then gather_values d i else none
    | _, _, _ => none

/-! ## Padding reindex (interpolate.cpp lines 57-70 and 126-139) -/

/-- Resizing `std::vector<size_t>::resize(n)`: truncates, or extends with zeros. -/
def resize (v : List Nat) (n : Nat) : List Nat :=
  v.take n ++ List.replicate (n - v.length) 0

/-- The loop `for (i = 0; i < order_size; ++i) new_pads[i] = pads[order[i]]`:
one slot of the result per entry of `order`, in order.  `operator[]` is
unchecked, so a read past the end of `pads` has no defined result. -/
def read_pads (pads : List Nat) : AxisVector → Option (List Nat)
  | [] => some []
  | o :: os =>
    match pads[o]?, read_pads pads os with
    | some p, some ps => some (p :: ps)
    | _, _ => none

/-- Specification 4.1, `reindex(order, array)`: "returns `array'` where
`array'[i] = array[order[i]]`".  Written from the specification's words,
to be compared with the loop `read_pads` of the source. -/
def reindex (order : AxisVector) (array : List Nat) : List Nat :=
  order.map fun o => array.getD o 0

/-- The block guarded by `!attrs.pads_begin.empty() || !attrs.pads_end.empty()`, the
same in the forward pass (with the transpose order) and in the backward
pass (with the reversed order): both arrays are resized to `order_size`
and re-read through `order`. -/
def reindex_pads (order : AxisVector) (attrs : InterpolateAttrs) : Option InterpolateAttrs :=
  if !attrs.pads_begin.isEmpty || !attrs.pads_end.isEmpty then
    let order_size := order.length
    let pads_begin := resize attrs.pads_begin order_size
    let pads_end := resize attrs.pads_end order_size
    match read_pads pads_begin order, read_pads pads_end order with
    | some new_pads_begin, some new_pads_end =>
      some { pads_begin := new_pads_begin, pads_end := new_pads_end }
    | _, _ => none
  else some attrs

/-- The block `if (interpolate) { ... interpolate->set_attrs(attrs); }`: skipped when the
cast to Interpolate fails. -/
def update_pads (n : Node) (order : AxisVector) : Option Node :=
  match n.op with
  | .Interpolate attrs =>
    (reindex_pads order attrs).map fun a => { n with op := .Interpolate a }
  | _ => some n

/-! ## Concat passes (transpose_sinking_concat.cpp) -/

/-- Axis computation of the forward pass, lines 42-43:
`transpose_axis_order[concat_axis]`. -/
def forward_concat_axis (transpose_const : List Int) (concat_axis : Int) : Option Int :=
  ((get_axis_vector_val transpose_const)[concat_axis.toNat]?).map Int.ofNat

/-- Axis computation of the backward pass, lines 87-89:
`ReverseTransposeOrder(transpose_axis_order)[concat_axis]`. -/
def backward_concat_axis (transpose_const : List Int) (concat_axis : Int) : Option Int :=
  ((ReverseTransposeOrder (get_axis_vector_val transpose_const))[concat_axis.toNat]?).map
    Int.ofNat

/-- Callback of `TransposeSinkingConcatForward`, lines 24-54. -/
def TransposeSinkingConcatForward.callback (g : Graph) : Option (Bool × Graph) :=
  let main_node := g.main_node
  let transpose_input_info := GetFirstTransposeInput main_node
  match get_concatenation_axis main_node with
  | none => none
  | some concat_axis =>
    if concat_axis < 0 then some (false, g)
    else
      let updated := UpdateInputTransposes main_node transpose_input_info
      if !updated.1 then some (false, { g with main_node := updated.2 })
      else
        match transpose_input_info with
        | none => none
        | some info =>
          match forward_concat_axis info.transpose_const concat_axis with
          | none => none
          | some transposed_concat_axis =>
            let n := set_axis updated.2 transposed_concat_axis
            let n := set_concatenation_axis n (-1)
            let n := validate_and_infer_types n
            let ins := InsertOutputTransposes n info
            some (true, registerForward { g with main_node := ins.1 } ins.2)

/-- Pass `TransposeSinkingConcatForward`: the pattern
`wrap_type<Concat>(IfNodeHasTransposeInputs)` of line 22, then the
callback.  A node the pattern rejects is left alone. -/
def TransposeSinkingConcatForward (g : Graph) : Option (Bool × Graph) :=
  match g.main_node.op with
  | .Concat _ _ =>
    if IfNodeHasTransposeInputs g.main_node then TransposeSinkingConcatForward.callback g
    else some (false, g)
  | _ => some (false, g)

/-- Callback of `TransposeSinkingConcatBackward`, lines 74-98, for the matched output
transpose with permutation constant `transpose_const` and display name
`transpose_name`. -/
def TransposeSinkingConcatBackward.callback (g : Graph) (transpose_const : List Int)
    (transpose_name : String) : Option (Bool × Graph) :=
  let main_node := g.main_node
  match get_concatenation_axis main_node with
  | none => none
  | some concat_axis =>
    if concat_axis < 0 then some (false, g)
    else
      let ins := InsertTransposeBeforeNode main_node transpose_const none
      let registered := g.registered ++ ins.2
      match backward_concat_axis transpose_const concat_axis with
      | none => none
      | some transposed_concat_axis =>
        let n := set_axis ins.1 transposed_concat_axis
        let n := set_concatenation_axis n (-1)
        let n := validate_and_infer_types n
        let n := RemoveSingleOutputConsumers n
        let n := { n with name := (SwapNames transpose_name n.name).2 }
        some (true, { main_node := n, registered := registered })

/-- Pass `TransposeSinkingConcatBackward`, rooted at the consumer in slot `k` of the
main node's output: the pattern of lines 63-72 (a sinking-tagged Transpose
of static rank fed by a Concat of static rank whose output transposes are
all the same), then the callback. -/
def TransposeSinkingConcatBackward (g : Graph) (k : Nat) : Option (Bool × Graph) :=
  match g.main_node.op, g.main_node.consumers[k]? with
  | .Concat _ _, some (.transpose name order sinking _) =>
    if (has_static_rank g.main_node && HasSameOutputTransposeNodes g.main_node) &&
        (transpose_has_static_rank g.main_node && is_sinking_node sinking) then
      TransposeSinkingConcatBackward.callback g order name
    else some (false, g)
  | _, _ => some (false, g)

/-! ## Interpolate passes (transpose_sinking_interpolate.cpp) -/

/-- Callback of `TransposeSinkingInterpolateForward`, lines 28-80; `transpose` and
`const` are the nodes the pattern map holds for `transpose_label` and
`const_label`. -/
def TransposeSinkingInterpolateForward.callback (g : Graph) (transpose const : Value) :
    Option (Bool × Graph) :=
  let main_node := g.main_node
  match as_Transpose transpose with
  | none => some (false, g)
  | some _ =>
    match as_Constant const with
    | none => some (false, g)
    | some transpose_const =>
      match (main_node.inputs[0]?).bind input_value_0 with
      | none => none
      | some transpose_parent =>
        let n := replace_source_output main_node 0 transpose_parent
        let transpose_axis_order := get_axis_vector_val transpose_const
        let axis := Value.constant [] [0]
        let data := Value.constant [transpose_axis_order.length]
          (transpose_axis_order.map Int.ofNat)
        match n.inputs[3]? with
        | none => none
        | some indices =>
          let new_axis := Value.gather data indices axis
          let n := replace_source_output n 3 new_axis
          match update_pads n transpose_axis_order with
          | none => none
          | some n =>
            let n := validate_and_infer_types n
            let transpose_input_info : TransposeInputsInfo := ⟨transpose, transpose_const, 0⟩
            let ins := InsertOutputTransposes n transpose_input_info
            some (true, registerForward { g with main_node := ins.1 } ins.2)

/-- Pass `TransposeSinkingInterpolateForward`: the pattern of lines 24-26 (an
Interpolate with four inputs whose input 0 is a Transpose with a constant
order), then the callback. -/
def TransposeSinkingInterpolateForward (g : Graph) : Option (Bool × Graph) :=
  match g.main_node.op, g.main_node.inputs with
  | .Interpolate _, [.transpose data order, _, _, _] =>
    TransposeSinkingInterpolateForward.callback g (.transpose data order)
      (.constant [order.length] order)
  | _, _ => some (false, g)

/-- Callback of `TransposeSinkingInterpolateBackward`, lines 100-143, for the matched
output transpose with permutation constant `transpose_const` and display
name `transpose_name`. -/
def TransposeSinkingInterpolateBackward.callback (g : Graph) (transpose_const : List Int)
    (transpose_name : String) : Option (Bool × Graph) :=
  let main_node := g.main_node
  let ins := InsertTransposeBeforeNode main_node transpose_const (some [0])
  let registered := g.registered ++ ins.2
  let n := RemoveSingleOutputConsumers ins.1
  let n := { n with name := (SwapNames n.name transpose_name).1 }
  let transpose_axis_order := get_axis_vector_val transpose_const
  let reversed_transpose_order := ReverseTransposeOrder transpose_axis_order
  let axis := Value.constant [] [0]
  let data := Value.constant [reversed_transpose_order.length]
    (reversed_transpose_order.map Int.ofNat)
  match n.inputs[3]? with
  | none => none
  | some indices =>
    let new_axis := Value.gather data indices axis
    let n := replace_source_output n 3 new_axis
    match update_pads n reversed_transpose_order with
    | none => none
    | some n =>
      some (true, { main_node := validate_and_infer_types n, registered := registered })

/-- Pass `TransposeSinkingInterpolateBackward`, rooted at the consumer in slot `k` of
the main node's output: the pattern of lines 89-98, then the callback. -/
def TransposeSinkingInterpolateBackward (g : Graph) (k : Nat) : Option (Bool × Graph) :=
  match g.main_node.op, g.main_node.consumers[k]? with
  | .Interpolate _, some (.transpose name order sinking _) =>
    if (has_static_rank g.main_node && HasSameOutputTransposeNodes g.main_node) &&
        (transpose_has_static_rank g.main_node && is_sinking_node sinking) then
      TransposeSinkingInterpolateBackward.callback g order name
    else some (false, g)
  | _, _ => some (false, g)

/-! ## Example graphs -/

/-- Concat forward example of the specification: two inputs behind transposes with
order `[0,2,3,1]`, concatenated on axis 1. -/
def example_concat_forward : Graph :=
  { main_node :=
      { name := "concat"
        op := .Concat 1 1
        inputs := [.transpose (.parameter 0 (some 4)) [0, 2, 3, 1],
                   .transpose (.parameter 1 (some 4)) [0, 2, 3, 1]]
        output_rank := some 4
        consumers := [.other 7] }
    registered := [] }

/-- Concat backward example of the specification: axis 2, the output read by two
sinking-tagged transposes with order `[0,3,1,2]`. -/
def example_concat_backward : Graph :=
  { main_node :=
      { name := "concat"
        op := .Concat 2 2
        inputs := [.parameter 0 (some 4), .parameter 1 (some 4)]
        output_rank := some 4
        consumers := [.transpose "t0" [0, 3, 1, 2] true [.other 7],
                      .transpose "t1" [0, 3, 1, 2] true [.other 8]] }
    registered := [] }

/-- Concat whose concatenation axis is `-1`, with a transpose on an input and on the
output. -/
def example_concat_negative : Graph :=
  { main_node :=
      { name := "concat"
        op := .Concat (-1) (-1)
        inputs := [.transpose (.parameter 0 (some 4)) [0, 2, 3, 1], .parameter 1 (some 4)]
        output_rank := some 4
        consumers := [.transpose "t0" [0, 3, 1, 2] true [.other 7]] }
    registered := [] }

/-- Interpolate forward example of the specification: input 0 behind a transpose with
order `[0,2,3,1]`, axes-selection values `[2,3]`, and distinct paddings on
every axis. -/
def example_interpolate_forward : Graph :=
  { main_node :=
      { name := "interpolate"
        op := .Interpolate { pads_begin := [0, 1, 2, 3], pads_end := [4, 5, 6, 7] }
        inputs := [.transpose (.parameter 0 (some 4)) [0, 2, 3, 1], .parameter 1 (some 1),
                   .parameter 2 (some 1), .constant [2] [2, 3]]
        output_rank := some 4
        consumers := [.other 7] }
    registered := [] }

/-- Interpolate whose output is read by a sinking-tagged transpose with order
`[0,2,3,1]`, axes-selection values `[2,3]`, and distinct paddings on every
axis. -/
def example_interpolate_backward : Graph :=
  { main_node :=
      { name := "interpolate"
        op := .Interpolate { pads_begin := [0, 1, 2, 3], pads_end := [4, 5, 6, 7] }
        inputs := [.parameter 0 (some 4), .parameter 1 (some 1),
                   .parameter 2 (some 1), .constant [2] [2, 3]]
        output_rank := some 4
        consumers := [.transpose "t0" [0, 2, 3, 1] true [.other 7]] }
    registered := [] }

/-- Concat whose second input has rank 3 while the reference transpose has an order of
length 4, so that input normalisation fails. -/
def example_concat_rank_mismatch : Graph :=
  { main_node :=
      { name := "concat"
        op := .Concat 1 1
        inputs := [.transpose (.parameter 0 (some 4)) [0, 2, 3, 1], .parameter 1 (some 3)]
        output_rank := some 4
        consumers := [.other 7] }
    registered := [] }

/-- Graph left by the forward Concat pass on `example_concat_forward`. -/
def example_concat_forward_result : Graph :=
  { main_node :=
      { name := "concat"
        op := .Concat 2 (-1)
        inputs := [.parameter 0 (some 4),
                   .transpose (.transpose (.parameter 1 (some 4)) [0, 2, 3, 1]) [0, 2, 3, 1]]
        output_rank := some 4
        consumers := [.transpose "" [0, 2, 3, 1] true [.other 7]] }
    registered := [.output 0] }

/-! # Theorems -/

/-! ## Permutation algebra -/

theorem IsPermutation.nodup {P : AxisVector} (h : IsPermutation P) : P.Nodup :=
  (List.Perm.nodup_iff h).2 (List.nodup_range _)

theorem IsPermutation.mem_iff {P : AxisVector} (h : IsPermutation P) (x : Nat) :
    x ∈ P ↔ x < P.length := by
  rw [List.Perm.mem_iff h, List.mem_range]

theorem IsPermutation.getElem_lt {P : AxisVector} (h : IsPermutation P) (i : Nat)
    (hi : i < P.length) : P[i] < P.length :=
  (h.mem_iff _).1 (List.getElem_mem _)

@[simp] theorem length_ReverseTransposeOrder (P : AxisVector) :
    (ReverseTransposeOrder P).length = P.length := by
  simp [ReverseTransposeOrder]

theorem getElem?_ReverseTransposeOrder (P : AxisVector) (j : Nat) (hj : j < P.length) :
    (ReverseTransposeOrder P)[j]? = some (P.indexOf j) := by
  simp [ReverseTransposeOrder, List.getElem?_map, List.getElem?_range hj]

theorem invert_apply {P : AxisVector} (h : IsPermutation P) (i : Nat) (hi : i < P.length) :
    (ReverseTransposeOrder P)[P[i]]? = some i := by
  rw [getElem?_ReverseTransposeOrder P _ (h.getElem_lt i hi), List.indexOf_getElem h.nodup]

theorem apply_invert {P : AxisVector} (h : IsPermutation P) (a : Nat) (ha : a < P.length) :
    ((ReverseTransposeOrder P)[a]?).bind (fun q => P[q]?) = some a := by
  have hmem : a ∈ P := (h.mem_iff a).2 ha
  have hlt : P.indexOf a < P.length := List.indexOf_lt_length.2 hmem
  rw [getElem?_ReverseTransposeOrder P a ha]
  simp [List.getElem?_eq_getElem hlt, List.getElem_indexOf hlt]

theorem ReverseTransposeOrder_lt {P : AxisVector} (h : IsPermutation P) :
    ∀ q ∈ ReverseTransposeOrder P, q < P.length := by
  intro q hq
  simp only [ReverseTransposeOrder, List.mem_map, List.mem_range] at hq
  obtain ⟨j, hj, rfl⟩ := hq
  exact List.indexOf_lt_length.2 ((h.mem_iff j).2 hj)

@[simp] theorem get_axis_vector_val_ofNat (P : AxisVector) :
    get_axis_vector_val (P.map Int.ofNat) = P := by
  simp [get_axis_vector_val, Function.comp_def]

/-! ## Padding reindex -/

@[simp] theorem length_resize (v : List Nat) (n : Nat) : (resize v n).length = n := by
  simp [resize]; omega

theorem resize_of_length {v : List Nat} {n : Nat} (h : v.length = n) : resize v n = v := by
  simp [resize, ← h]

@[simp] theorem length_reindex (order : AxisVector) (array : List Nat) :
    (reindex order array).length = order.length := by
  simp [reindex]

theorem read_pads_eq_reindex (pads : List Nat) (order : AxisVector)
    (h : ∀ o ∈ order, o < pads.length) : read_pads pads order = some (reindex order pads) := by
  induction order with
  | nil => rfl
  | cons o os ih =>
    have ho : o < pads.length := h o (List.mem_cons_self _ _)
    have ih' := ih fun x hx => h x (List.mem_cons_of_mem _ hx)
    simp [read_pads, ih', reindex, List.getElem?_eq_getElem ho, List.getD_eq_getElem _ _ ho]

theorem getElem?_reindex (order : AxisVector) (array : List Nat) (i : Nat) (hi : i < order.length)
    (hb : order[i] < array.length) : (reindex order array)[i]? = array[order[i]]? := by
  simp [reindex, List.getElem?_eq_getElem hi, List.getElem?_eq_getElem hb,
    List.getD_eq_getElem _ _ hb]

theorem reindex_pads_eq (order : AxisVector) (attrs : InterpolateAttrs)
    (h : ∀ o ∈ order, o < order.length) :
    reindex_pads order attrs = some
      (if attrs.pads_begin ≠ [] ∨ attrs.pads_end ≠ [] then
        { pads_begin := reindex order (resize attrs.pads_begin order.length),
          pads_end := reindex order (resize attrs.pads_end order.length) }
      else attrs) := by
  unfold reindex_pads
  by_cases hne : attrs.pads_begin ≠ [] ∨ attrs.pads_end ≠ []
  · have hc : (!attrs.pads_begin.isEmpty || !attrs.pads_end.isEmpty) = true := by
      rcases hne with h1 | h1
      · simp [List.isEmpty_iff, h1]
      · simp [List.isEmpty_iff, h1]
    rw [if_pos hc, if_pos hne]
    simp only []
    rw [read_pads_eq_reindex _ _ (by simpa using h), read_pads_eq_reindex _ _ (by simpa using h)]
  · have hc : ¬ (!attrs.pads_begin.isEmpty || !attrs.pads_end.isEmpty) = true := by
      push_neg at hne
      simp [hne.1, hne.2]
    rw [if_neg hc, if_neg hne]

theorem reindex_invert_reindex {P : AxisVector} (hP : IsPermutation P) (arr : List Nat)
    (hlen : arr.length = P.length) :
    reindex (ReverseTransposeOrder P) (reindex P arr) = arr := by
  apply List.ext_getElem?
  intro i
  by_cases hi : i < P.length
  · have hq : P.indexOf i < P.length := List.indexOf_lt_length.2 ((hP.mem_iff i).2 hi)
    have h1 : (ReverseTransposeOrder P)[i]? = some (P.indexOf i) :=
      getElem?_ReverseTransposeOrder P i hi
    have hia : i < arr.length := hlen ▸ hi
    simp [reindex, List.getElem?_map, h1, List.getElem?_eq_getElem hia,
      List.getD_eq_getElem?_getD, List.getElem?_eq_getElem hq, List.getElem_indexOf hq]
  · have h1 : (reindex (ReverseTransposeOrder P) (reindex P arr)).length ≤ i := by
      simp; omega
    have h2 : arr.length ≤ i := by omega
    rw [List.getElem?_eq_none h1, List.getElem?_eq_none h2]

/-! ## Bookkeeping helpers -/

theorem UpdateInputTransposes_fail (n : Node) (info : Option TransposeInputsInfo)
    (h : (UpdateInputTransposes n info).1 = false) : (UpdateInputTransposes n info).2 = n := by
  unfold UpdateInputTransposes at h ⊢
  cases info with
  | none => rfl
  | some i =>
    by_cases hc : (n.inputs.all fun v => rank v == some i.transpose_const.length) = true
    · simp [hc] at h
    · simp [hc]

@[simp] theorem UpdateInputTransposes_op (n : Node) (info : Option TransposeInputsInfo) :
    (UpdateInputTransposes n info).2.op = n.op := by
  unfold UpdateInputTransposes
  cases info with
  | none => rfl
  | some i => dsimp only; split <;> rfl

@[simp] theorem get_axis_registerForward_output (g : Graph) (i : Nat) :
    (registerForward g [.output i]).main_node.op = g.main_node.op := by
  simp [registerForward, UpdateForwardSinkingAbility]

theorem firstTransposeFrom_any (vs : List Value) (i : Nat) (info : TransposeInputsInfo)
    (h : firstTransposeFrom vs i = some info) :
    (vs.any fun v => (as_Transpose v).isSome) = true := by
  induction vs generalizing i with
  | nil => simp [firstTransposeFrom] at h
  | cons v vs ih =>
    cases v with
    | transpose d o => simp [as_Transpose]
    | parameter id r =>
      simp only [firstTransposeFrom] at h
      rw [List.any_cons, ih _ h, Bool.or_true]
    | constant s c =>
      simp only [firstTransposeFrom] at h
      rw [List.any_cons, ih _ h, Bool.or_true]
    | gather d ix ax =>
      simp only [firstTransposeFrom] at h
      rw [List.any_cons, ih _ h, Bool.or_true]

theorem concat_forward_callback_neg (g : Graph) (axis a : Int)
    (hop : g.main_node.op = .Concat axis a) (ha : a < 0) :
    TransposeSinkingConcatForward.callback g = some (false, g) := by
  simp [TransposeSinkingConcatForward.callback, get_concatenation_axis, hop, ha]

theorem concat_backward_callback_neg (g : Graph) (axis a : Int) (c : List Int) (nm : String)
    (hop : g.main_node.op = .Concat axis a) (ha : a < 0) :
    TransposeSinkingConcatBackward.callback g c nm = some (false, g) := by
  simp [TransposeSinkingConcatBackward.callback, get_concatenation_axis, hop, ha]

theorem concat_forward_callback_false (g g' : Graph)
    (h : TransposeSinkingConcatForward.callback g = some (false, g')) : g' = g := by
  unfold TransposeSinkingConcatForward.callback at h
  cases hc : get_concatenation_axis g.main_node with
  | none => simp [hc] at h
  | some c =>
    simp only [hc] at h
    by_cases hneg : c < 0
    · simp [hneg] at h; exact h.symm
    · simp only [hneg, if_false] at h
      cases hu : (UpdateInputTransposes g.main_node (GetFirstTransposeInput g.main_node)).1 with
      | false =>
        have := UpdateInputTransposes_fail _ _ hu
        simp [hu, this] at h
        exact h.symm
      | true =>
        simp only [hu] at h
        cases hi : GetFirstTransposeInput g.main_node with
        | none => simp [hi] at h
        | some info =>
          simp only [hi] at h
          cases hf : forward_concat_axis info.transpose_const c with
          | none => simp [hf] at h
          | some t => simp [hf] at h

theorem concat_forward_callback_true (g g' : Graph)
    (h : TransposeSinkingConcatForward.callback g = some (true, g')) :
    get_concatenation_axis g'.main_node = some (-1) := by
  unfold TransposeSinkingConcatForward.callback at h
  cases hc : get_concatenation_axis g.main_node with
  | none => simp [hc] at h
  | some c =>
    simp only [hc] at h
    by_cases hneg : c < 0
    · simp [hneg] at h
    · simp only [hneg, if_false] at h
      cases hu : (UpdateInputTransposes g.main_node (GetFirstTransposeInput g.main_node)).1 with
      | false => simp [hu] at h
      | true =>
        simp only [hu] at h
        cases hi : GetFirstTransposeInput g.main_node with
        | none => simp [hi] at h
        | some info =>
          simp only [hi] at h
          cases hf : forward_concat_axis info.transpose_const c with
          | none => simp [hf] at h
          | some t =>
            simp [hf] at h
            subst h
            have hop : ∃ ax, g.main_node.op = .Concat ax c := by
              unfold get_concatenation_axis at hc
              split at hc
              · rename_i a0 c0 heq
                simp at hc; subst hc; exact ⟨a0, heq⟩
              · simp at hc
            obtain ⟨ax, hop⟩ := hop
            simp [InsertOutputTransposes, validate_and_infer_types, set_concatenation_axis,
              set_axis, hop, get_concatenation_axis]

theorem concat_forward_pass_cases (g : Graph) :
    TransposeSinkingConcatForward g = some (false, g) ∨
    TransposeSinkingConcatForward g = TransposeSinkingConcatForward.callback g := by
  unfold TransposeSinkingConcatForward
  split
  · split
    · exact Or.inr rfl
    · exact Or.inl rfl
  · exact Or.inl rfl

theorem concat_backward_pass_cases (g : Graph) (k : Nat) :
    TransposeSinkingConcatBackward g k = some (false, g) ∨
    ∃ c nm, TransposeSinkingConcatBackward g k = TransposeSinkingConcatBackward.callback g c nm := by
  unfold TransposeSinkingConcatBackward
  split
  · split
    · exact Or.inr ⟨_, _, rfl⟩
    · exact Or.inl rfl
  · exact Or.inl rfl

theorem concat_backward_callback_false (g g' : Graph) (c : List Int) (nm : String)
    (h : TransposeSinkingConcatBackward.callback g c nm = some (false, g')) : g' = g := by
  unfold TransposeSinkingConcatBackward.callback at h
  cases hc : get_concatenation_axis g.main_node with
  | none => simp [hc] at h
  | some ca =>
    simp only [hc] at h
    by_cases hneg : ca < 0
    · simp [hneg] at h; exact h.symm
    · simp only [hneg, if_false] at h
      cases hf : backward_concat_axis c ca with
      | none => simp [hf] at h
      | some t => simp [hf] at h

theorem interpolate_forward_callback_false (g g' : Graph) (t cst : Value)
    (h : TransposeSinkingInterpolateForward.callback g t cst = some (false, g')) : g' = g := by
  unfold TransposeSinkingInterpolateForward.callback at h
  cases ht : as_Transpose t with
  | none => simp [ht] at h; exact h.symm
  | some tr =>
    simp only [ht] at h
    cases hc : as_Constant cst with
    | none => simp [hc] at h; exact h.symm
    | some vals =>
      simp only [hc] at h
      cases hp : (g.main_node.inputs[0]?).bind input_value_0 with
      | none => simp [hp] at h
      | some tp =>
        simp only [hp] at h
        split at h
        · simp at h
        · split at h
          · simp at h
          · simp at h

theorem interpolate_backward_callback_false (g g' : Graph) (c : List Int) (nm : String)
    (h : TransposeSinkingInterpolateBackward.callback g c nm = some (false, g')) : g' = g := by
  unfold TransposeSinkingInterpolateBackward.callback at h
  dsimp only at h
  split at h
  · simp at h
  · split at h
    · simp at h
    · simp at h

theorem interpolate_forward_pass_cases (g : Graph) :
    TransposeSinkingInterpolateForward g = some (false, g) ∨
    ∃ t cst, TransposeSinkingInterpolateForward g
      = TransposeSinkingInterpolateForward.callback g t cst := by
  unfold TransposeSinkingInterpolateForward
  split
  · exact Or.inr ⟨_, _, rfl⟩
  · exact Or.inl rfl

theorem interpolate_backward_pass_cases (g : Graph) (k : Nat) :
    TransposeSinkingInterpolateBackward g k = some (false, g) ∨
    ∃ c nm, TransposeSinkingInterpolateBackward g k
      = TransposeSinkingInterpolateBackward.callback g c nm := by
  unfold TransposeSinkingInterpolateBackward
  split
  · split
    · exact Or.inr ⟨_, _, rfl⟩
    · exact Or.inl rfl
  · exact Or.inl rfl

theorem op_of_get_concatenation_axis (n : Node) (c : Int)
    (h : get_concatenation_axis n = some c) : ∃ ax, n.op = .Concat ax c := by
  unfold get_concatenation_axis at h
  split at h
  · rename_i a0 c0 heq
    simp at h; subst h; exact ⟨a0, heq⟩
  · simp at h

/-! ## Interpolate passes -/

theorem gather_values_ofNat (P : AxisVector) (A : List Int)
    (hrange : ∀ a ∈ A, 0 ≤ a ∧ a.toNat < P.length) :
    gather_values (P.map Int.ofNat) A
      = some (A.pmap (fun a h => (P.get ⟨a.toNat, h.2⟩ : Int)) hrange) := by
  induction A with
  | nil => rfl
  | cons a as ih =>
    have ha := hrange a (List.mem_cons_self _ _)
    have ih' := ih fun x hx => hrange x (List.mem_cons_of_mem _ hx)
    simp [gather_values, ha.1, ih', List.getElem?_map, List.getElem?_eq_getElem ha.2]

/-- Result of the forward Interpolate pass on a matched node, given the result of the
padding block. -/
theorem interpolate_forward_eq (g : Graph) (attrs attrs' : InterpolateAttrs)
    (d i1 i2 axes : Value) (c : List Int)
    (hop : g.main_node.op = .Interpolate attrs)
    (hin : g.main_node.inputs = [.transpose d c, i1, i2, axes])
    (hpads : reindex_pads (get_axis_vector_val c) attrs = some attrs') :
    TransposeSinkingInterpolateForward g = some (true,
      { main_node :=
          { name := g.main_node.name
            op := .Interpolate attrs'
            inputs := [d, i1, i2,
              .gather (.constant [(get_axis_vector_val c).length]
                ((get_axis_vector_val c).map Int.ofNat)) axes (.constant [] [0])]
            output_rank := rank d
            consumers := [.transpose "" c true g.main_node.consumers] }
        registered := g.registered ++ [.output 0] }) := by
  obtain ⟨⟨nm, op, inputs, rk, cons⟩, reg⟩ := g
  simp only at hop hin
  subst hop hin
  simp [TransposeSinkingInterpolateForward, TransposeSinkingInterpolateForward.callback,
    as_Transpose, as_Constant, input_value_0, replace_source_output, update_pads,
    hpads, validate_and_infer_types, InsertOutputTransposes,
    registerForward, UpdateForwardSinkingAbility]

/-- Result of the backward Interpolate callback on a node with four inputs, given the
result of the padding block. -/
theorem interpolate_backward_callback_eq (g : Graph) (attrs attrs' : InterpolateAttrs)
    (x0 x1 x2 x3 : Value) (c : List Int) (nm : String)
    (hop : g.main_node.op = .Interpolate attrs)
    (hin : g.main_node.inputs = [x0, x1, x2, x3])
    (hpads : reindex_pads (ReverseTransposeOrder (get_axis_vector_val c)) attrs = some attrs') :
    TransposeSinkingInterpolateBackward.callback g c nm = some (true,
      { main_node :=
          { name := nm
            op := .Interpolate attrs'
            inputs := [.transpose x0 c, x1, x2,
              .gather (.constant [(get_axis_vector_val c).length]
                ((ReverseTransposeOrder (get_axis_vector_val c)).map Int.ofNat)) x3
                (.constant [] [0])]
            output_rank := rank x0
            consumers := (RemoveSingleOutputConsumers g.main_node).consumers }
        registered := g.registered ++ [.input 0] }) := by
  obtain ⟨⟨nm0, op, inputs, rk, cons⟩, reg⟩ := g
  simp only at hop hin
  subst hop hin
  simp [TransposeSinkingInterpolateBackward.callback, InsertTransposeBeforeNode,
    RemoveSingleOutputConsumers, SwapNames, replace_source_output, update_pads,
    hpads, validate_and_infer_types, rank, List.enum]

/-- Result of the backward Concat callback on a node with resolved axis. -/
theorem concat_backward_callback_axis (g : Graph) (axis a t : Int) (c : List Int) (nm : String)
    (hop : g.main_node.op = .Concat axis a) (ha : 0 ≤ a)
    (ht : backward_concat_axis c a = some t) :
    (TransposeSinkingConcatBackward.callback g c nm).map
      (fun r => (r.1, get_axis r.2.main_node)) = some (true, some t) := by
  have hna : ¬ a < 0 := by omega
  simp [TransposeSinkingConcatBackward.callback, get_concatenation_axis, hop, hna, ht,
    InsertTransposeBeforeNode, set_axis, set_concatenation_axis, validate_and_infer_types,
    RemoveSingleOutputConsumers, get_axis]

theorem gather_round_trip {P : AxisVector} (hP : IsPermutation P) (A : List Int)
    (hA : ∀ x ∈ A, 0 ≤ x ∧ x.toNat < P.length) :
    (gather_values (P.map Int.ofNat) A).bind
      (gather_values ((ReverseTransposeOrder P).map Int.ofNat)) = some A := by
  induction A with
  | nil => rfl
  | cons a as ih =>
    have ha := hA a (List.mem_cons_self _ _)
    have ih' := ih fun x hx => hA x (List.mem_cons_of_mem _ hx)
    cases hg : gather_values (P.map Int.ofNat) as with
    | none => simp [hg] at ih'
    | some B =>
      rw [hg] at ih'
      simp only [Option.some_bind] at ih'
      have hinv := invert_apply hP a.toNat ha.2
      simp [gather_values, ha.1, hg, List.getElem?_map, List.getElem?_eq_getElem ha.2, ih',
        hinv, Int.toNat_of_nonneg ha.1]

theorem reindex_pads_round_trip {P : AxisVector} (hP : IsPermutation P)
    (attrs : InterpolateAttrs) (hb : attrs.pads_begin.length = P.length)
    (he : attrs.pads_end.length = P.length) :
    (reindex_pads P attrs).bind (reindex_pads (ReverseTransposeOrder P)) = some attrs := by
  have hlt : ∀ o ∈ P, o < P.length := fun o ho => (hP.mem_iff o).1 ho
  have hlt' : ∀ o ∈ ReverseTransposeOrder P, o < (ReverseTransposeOrder P).length := by
    intro o ho
    simpa using ReverseTransposeOrder_lt hP o ho
  rw [reindex_pads_eq P attrs hlt, Option.some_bind, reindex_pads_eq _ _ hlt']
  by_cases hne : attrs.pads_begin ≠ [] ∨ attrs.pads_end ≠ []
  · have hpos : 0 < P.length := by
      rcases hne with h | h
      · rw [← hb]; exact List.length_pos.2 h
      · rw [← he]; exact List.length_pos.2 h
    have hne' : reindex P (resize attrs.pads_begin P.length) ≠ [] := by
      intro h0
      have hl : (reindex P (resize attrs.pads_begin P.length)).length = 0 := by
        rw [h0]; rfl
      rw [length_reindex] at hl
      omega
    simp only [if_pos hne, if_pos (Or.inl hne'), length_ReverseTransposeOrder]
    rw [resize_of_length hb, resize_of_length he,
      resize_of_length (length_reindex P _), resize_of_length (length_reindex P _),
      reindex_invert_reindex hP _ hb, reindex_invert_reindex hP _ he]
  · simp only [if_neg hne]

/-! ## The claims -/

/-- C1: Concat forward sink.  For a Concat whose resolved concatenation axis is
`a ≥ 0`, whose reference input transpose (the first transpose input) holds a
valid permutation `P` with `a < |P|`, and whose input normalisation succeeds,
the forward pass returns true and the axis attribute afterwards is `P[a]`,
an axis below `|P|`. -/
theorem concat_forward_axis (g : Graph) (axis a : Int) (info : TransposeInputsInfo)
    (P : AxisVector)
    (hop : g.main_node.op = .Concat axis a) (ha : 0 ≤ a)
    (hinfo : GetFirstTransposeInput g.main_node = some info)
    (hconst : get_axis_vector_val info.transpose_const = P)
    (hP : IsPermutation P) (hlen : a.toNat < P.length)
    (hupd : (UpdateInputTransposes g.main_node (some info)).1 = true) :
    (TransposeSinkingConcatForward g).map (fun r => (r.1, get_axis r.2.main_node))
      = some (true, some (P[a.toNat] : Int)) ∧ P[a.toNat] < P.length := by
  refine ⟨?_, hP.getElem_lt _ hlen⟩
  have hany : IfNodeHasTransposeInputs g.main_node = true :=
    firstTransposeFrom_any _ _ _ hinfo
  have hna : ¬ a < 0 := by omega
  have hfa : forward_concat_axis info.transpose_const a = some (P[a.toNat] : Int) := by
    simp [forward_concat_axis, hconst, List.getElem?_eq_getElem hlen]
  simp [TransposeSinkingConcatForward, TransposeSinkingConcatForward.callback, hop, hany,
    get_concatenation_axis, hna, hinfo, hupd, hfa, InsertOutputTransposes,
    validate_and_infer_types, set_concatenation_axis, set_axis, get_axis]

/-- Witness of C1 on the specification's example: `P = [0,2,3,1]`, `a = 1`, new axis 2. -/
theorem concat_forward_axis_witness :
    (TransposeSinkingConcatForward example_concat_forward).map
      (fun r => (r.1, get_axis r.2.main_node)) = some (true, some 2) ∧ 2 < 4 :=
  concat_forward_axis example_concat_forward 1 1
    ⟨.transpose (.parameter 0 (some 4)) [0, 2, 3, 1], [0, 2, 3, 1], 0⟩ [0, 2, 3, 1]
    rfl (by decide) rfl rfl (by decide) (by decide) rfl

/-- C2: Concat backward sink.  For a Concat whose resolved concatenation axis is
`a ≥ 0` and whose output is read only by identical sinking-tagged transposes
with a valid permutation `P`, `a < |P|`, the backward callback returns true
and the axis attribute afterwards is `invert(P)[a]`, where
`invert(P)[P[i]] = i` for every `i`; the pass is that callback whenever the
output rank is static, as its pattern requires. -/
theorem concat_backward_axis (g : Graph) (axis a : Int) (k : Nat) (name : String)
    (transpose_const : List Int) (cs : List Consumer) (P : AxisVector)
    (hop : g.main_node.op = .Concat axis a) (ha : 0 ≤ a)
    (hk : g.main_node.consumers[k]? = some (.transpose name transpose_const true cs))
    (hsame : HasSameOutputTransposeNodes g.main_node = true)
    (hconst : get_axis_vector_val transpose_const = P)
    (hP : IsPermutation P) (hlen : a.toNat < P.length) :
    (TransposeSinkingConcatBackward.callback g transpose_const name).map
        (fun r => (r.1, get_axis r.2.main_node))
      = some (true, ((ReverseTransposeOrder P)[a.toNat]?).map Int.ofNat) ∧
    ((ReverseTransposeOrder P)[a.toNat]?).isSome = true ∧
    (∀ i (hi : i < P.length), (ReverseTransposeOrder P)[P[i]]? = some i) ∧
    (has_static_rank g.main_node = true →
      TransposeSinkingConcatBackward g k
        = TransposeSinkingConcatBackward.callback g transpose_const name) := by
  have hq : (ReverseTransposeOrder P)[a.toNat]? = some (P.indexOf a.toNat) :=
    getElem?_ReverseTransposeOrder P _ hlen
  refine ⟨?_, by simp [hq], fun i hi => invert_apply hP i hi, ?_⟩
  · rw [hq]
    apply concat_backward_callback_axis g axis a _ _ _ hop ha
    simp [backward_concat_axis, hconst, hq]
  · intro hrank
    simp [TransposeSinkingConcatBackward, hop, hk, hrank, hsame, transpose_has_static_rank,
      is_sinking_node]

/-- Witness of C2 on the specification's example: `P = [0,3,1,2]`, `a = 2`,
`invert(P) = [0,2,3,1]`, new axis 3. -/
theorem concat_backward_axis_witness :
    ((TransposeSinkingConcatBackward.callback example_concat_backward [0, 3, 1, 2] "t0").map
        (fun r => (r.1, get_axis r.2.main_node)) = some (true, some 3) ∧
      ((ReverseTransposeOrder [0, 3, 1, 2])[2]?).isSome = true ∧
      (∀ i (hi : i < 4), (ReverseTransposeOrder [0, 3, 1, 2])[[0, 3, 1, 2][i]]? = some i) ∧
      (has_static_rank example_concat_backward.main_node = true →
        TransposeSinkingConcatBackward example_concat_backward 0
          = TransposeSinkingConcatBackward.callback example_concat_backward
              [0, 3, 1, 2] "t0")) ∧
    ReverseTransposeOrder [0, 3, 1, 2] = [0, 2, 3, 1] :=
  ⟨concat_backward_axis example_concat_backward 2 2 0 "t0" [0, 3, 1, 2] [.other 7]
      [0, 3, 1, 2] rfl (by decide) rfl rfl rfl (by decide) (by decide),
    by decide⟩

/-- C3: negative-axis guard.  For a Concat whose concatenation axis is negative, the
forward and the backward pass (and their callbacks, for any matched
transpose) return false and leave the graph exactly as it was. -/
theorem concat_negative_axis_guard (g : Graph) (axis a : Int) (k : Nat)
    (transpose_const : List Int) (transpose_name : String)
    (hop : g.main_node.op = .Concat axis a) (ha : a < 0) :
    TransposeSinkingConcatForward g = some (false, g) ∧
    TransposeSinkingConcatForward.callback g = some (false, g) ∧
    TransposeSinkingConcatBackward g k = some (false, g) ∧
    TransposeSinkingConcatBackward.callback g transpose_const transpose_name
      = some (false, g) := by
  have hcf := concat_forward_callback_neg g axis a hop ha
  have hcb := fun c nm => concat_backward_callback_neg g axis a c nm hop ha
  refine ⟨?_, hcf, ?_, hcb _ _⟩
  · rcases concat_forward_pass_cases g with h | h
    · exact h
    · rw [h, hcf]
  · rcases concat_backward_pass_cases g k with h | ⟨c, nm, h⟩
    · exact h
    · rw [h, hcb]

/-- Witness of C3: a Concat with concatenation axis `-1`. -/
theorem concat_negative_axis_guard_witness :
    TransposeSinkingConcatForward example_concat_negative
      = some (false, example_concat_negative) ∧
    TransposeSinkingConcatForward.callback example_concat_negative
      = some (false, example_concat_negative) ∧
    TransposeSinkingConcatBackward example_concat_negative 0
      = some (false, example_concat_negative) ∧
    TransposeSinkingConcatBackward.callback example_concat_negative [0, 3, 1, 2] "t0"
      = some (false, example_concat_negative) :=
  concat_negative_axis_guard example_concat_negative (-1) (-1) 0 [0, 3, 1, 2] "t0" rfl
    (by decide)

/-- C4: Interpolate forward sink, axes.  For an Interpolate whose input 0 is a
transpose with a valid permutation `P` and whose axes-selection input
evaluates to `A` with every value in `[0, |P|)`, the forward pass returns
true and input 3 afterwards evaluates to `gather(P, A)`: its `i`-th value is
`P[A[i]]`. -/
theorem interpolate_forward_axes (g : Graph) (attrs : InterpolateAttrs)
    (d i1 i2 axes : Value) (c : List Int) (P : AxisVector) (env : Nat → List Int)
    (A : List Int)
    (hop : g.main_node.op = .Interpolate attrs)
    (hin : g.main_node.inputs = [.transpose d c, i1, i2, axes])
    (hconst : get_axis_vector_val c = P) (hP : IsPermutation P)
    (hA : eval env axes = some A)
    (hrange : ∀ a ∈ A, 0 ≤ a ∧ a.toNat < P.length) :
    (TransposeSinkingInterpolateForward g).map
        (fun r => (r.1, (r.2.main_node.inputs[3]?).bind (eval env)))
      = some (true, some (A.pmap (fun a h => (P.get ⟨a.toNat, h.2⟩ : Int)) hrange)) := by
  have hlt : ∀ o ∈ get_axis_vector_val c, o < (get_axis_vector_val c).length := by
    rw [hconst]; exact fun o ho => (hP.mem_iff o).1 ho
  rw [interpolate_forward_eq g attrs _ d i1 i2 axes c hop hin (reindex_pads_eq _ attrs hlt)]
  simp [eval, hA, hconst, gather_values_ofNat P A hrange]

/-- Witness of C4 on the specification's example: `P = [0,2,3,1]`, `A = [2,3]`, new
axes-selection values `[3,1]`. -/
theorem interpolate_forward_axes_witness :
    (TransposeSinkingInterpolateForward example_interpolate_forward).map
        (fun r => (r.1, (r.2.main_node.inputs[3]?).bind (eval fun _ => [])))
      = some (true, some [3, 1]) :=
  interpolate_forward_axes example_interpolate_forward
    { pads_begin := [0, 1, 2, 3], pads_end := [4, 5, 6, 7] }
    (.parameter 0 (some 4)) (.parameter 1 (some 1)) (.parameter 2 (some 1))
    (.constant [2] [2, 3]) [0, 2, 3, 1] [0, 2, 3, 1] (fun _ => []) [2, 3]
    rfl rfl rfl (by decide) rfl (by decide)

/-- C5: Interpolate forward padding reindex.  For a valid permutation `P` of length
`n`: when `pads_begin` or `pads_end` is non-empty the forward pass replaces
both by `reindex(P, ·)` of the array resized to `n`; each new array has
length `n`, its slot `i` holds the old slot `P[i]`, and every read of the
loop is in bounds; when both are empty the attributes are unchanged. -/
theorem interpolate_forward_pads (g : Graph) (attrs : InterpolateAttrs)
    (d i1 i2 axes : Value) (c : List Int) (P : AxisVector)
    (hop : g.main_node.op = .Interpolate attrs)
    (hin : g.main_node.inputs = [.transpose d c, i1, i2, axes])
    (hconst : get_axis_vector_val c = P) (hP : IsPermutation P) :
    (TransposeSinkingInterpolateForward g).map (fun r => (r.1, get_attrs r.2.main_node))
      = some (true, some
          (if attrs.pads_begin ≠ [] ∨ attrs.pads_end ≠ [] then
            { pads_begin := reindex P (resize attrs.pads_begin P.length),
              pads_end := reindex P (resize attrs.pads_end P.length) }
          else attrs)) ∧
    ∀ pads : List Nat,
      read_pads (resize pads P.length) P = some (reindex P (resize pads P.length)) ∧
      (reindex P (resize pads P.length)).length = P.length ∧
      ∀ i (hi : i < P.length),
        P[i] < (resize pads P.length).length ∧
        (reindex P (resize pads P.length))[i]? = (resize pads P.length)[P[i]]? := by
  have hlt : ∀ o ∈ P, o < P.length := fun o ho => (hP.mem_iff o).1 ho
  constructor
  · have hlt' : ∀ o ∈ get_axis_vector_val c, o < (get_axis_vector_val c).length := by
      rw [hconst]; exact hlt
    rw [interpolate_forward_eq g attrs _ d i1 i2 axes c hop hin (reindex_pads_eq _ attrs hlt')]
    simp [get_attrs, hconst]
  · intro pads
    refine ⟨read_pads_eq_reindex _ _ (by simpa using hlt), length_reindex _ _, ?_⟩
    intro i hi
    have hb : P[i] < (resize pads P.length).length := by
      simpa using hP.getElem_lt i hi
    exact ⟨hb, getElem?_reindex _ _ i hi hb⟩

/-- Witness of C5: `P = [0,2,3,1]`, `pads_begin = [0,1,2,3]`, `pads_end = [4,5,6,7]`. -/
theorem interpolate_forward_pads_witness :
    (TransposeSinkingInterpolateForward example_interpolate_forward).map
        (fun r => (r.1, get_attrs r.2.main_node))
      = some (true, some { pads_begin := [0, 2, 3, 1], pads_end := [4, 6, 7, 5] }) :=
  (interpolate_forward_pads example_interpolate_forward
    { pads_begin := [0, 1, 2, 3], pads_end := [4, 5, 6, 7] }
    (.parameter 0 (some 4)) (.parameter 1 (some 1)) (.parameter 2 (some 1))
    (.constant [2] [2, 3]) [0, 2, 3, 1] [0, 2, 3, 1] rfl rfl rfl (by decide)).1

/-- C6: atomicity on failure.  Whenever one of the four callbacks, or one of the four
passes, returns false, the graph it leaves is the graph it was given: no
input edge replaced, no attribute edited, no node inserted or registered.
(The backward Interpolate callback has no path that returns false.) -/
theorem failure_leaves_graph_unmodified (g g' : Graph) (k : Nat)
    (transpose_const : List Int) (transpose_name : String) (transpose const : Value)
    (h : TransposeSinkingConcatForward.callback g = some (false, g') ∨
      TransposeSinkingConcatBackward.callback g transpose_const transpose_name
        = some (false, g') ∨
      TransposeSinkingInterpolateForward.callback g transpose const = some (false, g') ∨
      TransposeSinkingInterpolateBackward.callback g transpose_const transpose_name
        = some (false, g') ∨
      TransposeSinkingConcatForward g = some (false, g') ∨
      TransposeSinkingConcatBackward g k = some (false, g') ∨
      TransposeSinkingInterpolateForward g = some (false, g') ∨
      TransposeSinkingInterpolateBackward g k = some (false, g')) :
    g' = g := by
  rcases h with h | h | h | h | h | h | h | h
  · exact concat_forward_callback_false g g' h
  · exact concat_backward_callback_false g g' _ _ h
  · exact interpolate_forward_callback_false g g' _ _ h
  · exact interpolate_backward_callback_false g g' _ _ h
  · rcases concat_forward_pass_cases g with h1 | h1
    · rw [h1] at h; simp at h; exact h.symm
    · rw [h1] at h; exact concat_forward_callback_false g g' h
  · rcases concat_backward_pass_cases g k with h1 | ⟨c, nm, h1⟩
    · rw [h1] at h; simp at h; exact h.symm
    · rw [h1] at h; exact concat_backward_callback_false g g' _ _ h
  · rcases interpolate_forward_pass_cases g with h1 | ⟨t, cst, h1⟩
    · rw [h1] at h; simp at h; exact h.symm
    · rw [h1] at h; exact interpolate_forward_callback_false g g' _ _ h
  · rcases interpolate_backward_pass_cases g k with h1 | ⟨c, nm, h1⟩
    · rw [h1] at h; simp at h; exact h.symm
    · rw [h1] at h; exact interpolate_backward_callback_false g g' _ _ h

/-- Witness of C6: the forward Concat callback fails in input normalisation (an input
of rank 3 against an order of length 4) and the graph is the one given. -/
theorem failure_leaves_graph_unmodified_witness :
    TransposeSinkingConcatForward.callback example_concat_rank_mismatch
      = some (false, example_concat_rank_mismatch) ∧
    example_concat_rank_mismatch = example_concat_rank_mismatch :=
  ⟨rfl, failure_leaves_graph_unmodified example_concat_rank_mismatch
    example_concat_rank_mismatch 0 [] "" (.constant [] []) (.constant [] []) (Or.inl rfl)⟩

/-- C7: no re-fire after a forward sink.  When the forward Concat pass succeeds, the
node it leaves has concatenation axis `-1` (the sentinel), and applying the
forward pass (or its callback) to that node again returns false and leaves
it as it is. -/
theorem concat_forward_no_refire (g g' : Graph)
    (h : TransposeSinkingConcatForward g = some (true, g')) :
    get_concatenation_axis g'.main_node = some (-1) ∧
    TransposeSinkingConcatForward.callback g' = some (false, g') ∧
    TransposeSinkingConcatForward g' = some (false, g') := by
  have hcb : TransposeSinkingConcatForward.callback g = some (true, g') := by
    rcases concat_forward_pass_cases g with h1 | h1
    · rw [h1] at h; simp at h
    · rw [← h1]; exact h
  have hs := concat_forward_callback_true g g' hcb
  obtain ⟨ax, hop⟩ := op_of_get_concatenation_axis _ _ hs
  have hf := concat_forward_callback_neg g' ax (-1) hop (by decide)
  refine ⟨hs, hf, ?_⟩
  rcases concat_forward_pass_cases g' with h1 | h1
  · exact h1
  · rw [h1, hf]

/-- Witness of C7: the forward pass on the specification's Concat example, applied
again to its own result. -/
theorem concat_forward_no_refire_witness :
    TransposeSinkingConcatForward example_concat_forward
      = some (true, example_concat_forward_result) ∧
    get_concatenation_axis example_concat_forward_result.main_node = some (-1) ∧
    TransposeSinkingConcatForward.callback example_concat_forward_result
      = some (false, example_concat_forward_result) ∧
    TransposeSinkingConcatForward example_concat_forward_result
      = some (false, example_concat_forward_result) :=
  ⟨rfl, concat_forward_no_refire example_concat_forward example_concat_forward_result rfl⟩

/-- Axis left by the forward Concat pass on a node with resolved axis `a` whose
reference transpose has an order longer than `a` and whose input
normalisation succeeds. -/
theorem concat_forward_pass_axis (g : Graph) (axis a : Int) (info : TransposeInputsInfo)
    (P : AxisVector)
    (hop : g.main_node.op = .Concat axis a) (ha : 0 ≤ a)
    (hinfo : GetFirstTransposeInput g.main_node = some info)
    (hconst : get_axis_vector_val info.transpose_const = P)
    (hlen : a.toNat < P.length)
    (hupd : (UpdateInputTransposes g.main_node (some info)).1 = true) :
    (TransposeSinkingConcatForward g).map (fun r => (r.1, get_axis r.2.main_node))
      = some (true, some (P[a.toNat] : Int)) := by
  have hany : IfNodeHasTransposeInputs g.main_node = true :=
    firstTransposeFrom_any _ _ _ hinfo
  have hna : ¬ a < 0 := by omega
  have hfa : forward_concat_axis info.transpose_const a = some (P[a.toNat] : Int) := by
    simp [forward_concat_axis, hconst, List.getElem?_eq_getElem hlen]
  simp [TransposeSinkingConcatForward, TransposeSinkingConcatForward.callback, hop, hany,
    get_concatenation_axis, hna, hinfo, hupd, hfa, InsertOutputTransposes,
    validate_and_infer_types, set_concatenation_axis, set_axis, get_axis]

/-- Value of input 3 after the forward Interpolate pass followed by the backward
callback with the same permutation constant. -/
theorem interpolate_axes_round_trip {P : AxisVector} (hP : IsPermutation P) (A : List Int)
    (hA : ∀ x ∈ A, 0 ≤ x ∧ x.toNat < P.length)
    (g : Graph) (attrs : InterpolateAttrs) (d i1 i2 axes : Value) (c : List Int)
    (nm : String) (env : Nat → List Int)
    (hop : g.main_node.op = .Interpolate attrs)
    (hin : g.main_node.inputs = [.transpose d c, i1, i2, axes])
    (hconst : get_axis_vector_val c = P)
    (hax : eval env axes = some A) :
    ((TransposeSinkingInterpolateForward g).bind
        fun r => TransposeSinkingInterpolateBackward.callback r.2 c nm).map
      (fun r => (r.1, (r.2.main_node.inputs[3]?).bind (eval env))) = some (true, some A) := by
  have hlt : ∀ o ∈ P, o < P.length := fun o ho => (hP.mem_iff o).1 ho
  have hlt' : ∀ o ∈ ReverseTransposeOrder P, o < (ReverseTransposeOrder P).length := by
    intro o ho
    simpa using ReverseTransposeOrder_lt hP o ho
  have hg := gather_round_trip hP A hA
  cases hB : gather_values (P.map Int.ofNat) A with
  | none => simp [hB] at hg
  | some B =>
    rw [hB, Option.some_bind] at hg
    rw [interpolate_forward_eq g attrs _ d i1 i2 axes c hop hin
      (by rw [hconst]; exact reindex_pads_eq P attrs hlt), Option.some_bind]
    rw [interpolate_backward_callback_eq _ _ _ _ _ _ _ c nm rfl rfl
      (by rw [hconst]; exact reindex_pads_eq _ _ hlt')]
    simp [eval, hax, hconst, hB, hg]

/-- C8: round-trip axis identity.  For a valid permutation `P` and an axis
`a < |P|`: `invert(P)[P[a]] = a` and `P[invert(P)[a]] = a`; the backward
Concat axis computation maps the forward one's result back to `a`, and so
does the backward Concat callback run on a Concat whose axis is the one the
forward pass leaves; the backward Interpolate gather over `invert(P)` undoes
the forward gather over `P` on axes-selection values in `[0, |P|)`, and
after the forward Interpolate pass followed by the backward callback with
the same `P`, input 3 evaluates to the original axes-selection values. -/
theorem round_trip_axis_identity (P : AxisVector) (a : Nat) (A : List Int)
    (hP : IsPermutation P) (ha : a < P.length)
    (hA : ∀ x ∈ A, 0 ≤ x ∧ x.toNat < P.length) :
    (ReverseTransposeOrder P)[P[a]]? = some a ∧
    ((ReverseTransposeOrder P)[a]?).bind (fun q => P[q]?) = some a ∧
    (forward_concat_axis (P.map Int.ofNat) a).bind (backward_concat_axis (P.map Int.ofNat))
      = some (a : Int) ∧
    (gather_values (P.map Int.ofNat) A).bind
      (gather_values ((ReverseTransposeOrder P).map Int.ofNat)) = some A ∧
    (∀ (g₁ g₂ : Graph) (ax₁ ax₂ : Int) (info : TransposeInputsInfo) (c : List Int)
        (nm : String),
      g₁.main_node.op = .Concat ax₁ a →
      GetFirstTransposeInput g₁.main_node = some info →
      get_axis_vector_val info.transpose_const = P →
      (UpdateInputTransposes g₁.main_node (some info)).1 = true →
      g₂.main_node.op = .Concat ax₂ (P[a] : Int) →
      get_axis_vector_val c = P →
      (TransposeSinkingConcatForward g₁).map (fun r => (r.1, get_axis r.2.main_node))
        = some (true, some (P[a] : Int)) ∧
      (TransposeSinkingConcatBackward.callback g₂ c nm).map
        (fun r => (r.1, get_axis r.2.main_node)) = some (true, some (a : Int))) ∧
    (∀ (g : Graph) (attrs : InterpolateAttrs) (d i1 i2 axes : Value) (c : List Int)
        (nm : String) (env : Nat → List Int),
      g.main_node.op = .Interpolate attrs →
      g.main_node.inputs = [.transpose d c, i1, i2, axes] →
      get_axis_vector_val c = P →
      eval env axes = some A →
      ((TransposeSinkingInterpolateForward g).bind
          fun r => TransposeSinkingInterpolateBackward.callback r.2 c nm).map
        (fun r => (r.1, (r.2.main_node.inputs[3]?).bind (eval env)))
        = some (true, some A)) := by
  refine ⟨invert_apply hP a ha, apply_invert hP a ha, ?_, gather_round_trip hP A hA, ?_, ?_⟩
  · simp [forward_concat_axis, backward_concat_axis, List.getElem?_eq_getElem ha,
      invert_apply hP a ha]
  · intro g₁ g₂ ax₁ ax₂ info c nm hop₁ hinfo hconst₁ hupd hop₂ hconst₂
    constructor
    · have h := concat_forward_pass_axis g₁ ax₁ (a : Int) info P hop₁ (by omega) hinfo
        hconst₁ (by simpa using ha) hupd
      simpa using h
    · apply concat_backward_callback_axis g₂ ax₂ (P[a] : Int) _ c nm hop₂ (by omega)
      simp [backward_concat_axis, hconst₂, invert_apply hP a ha]
  · intro g attrs d i1 i2 axes c nm env hop hin hconst hax
    exact interpolate_axes_round_trip hP A hA g attrs d i1 i2 axes c nm env hop hin hconst hax

/-- Witness of C8: `P = [0,2,3,1]`, `a = 1`, axes-selection values `[2,3]`; the forward
Concat pass on the specification's example leaves axis 2 and the backward
callback on the backward example (axis 2) gives axis 1 back; the forward
Interpolate pass followed by the backward callback leaves input 3
evaluating to `[2,3]`. -/
theorem round_trip_axis_identity_witness :
    (ReverseTransposeOrder [0, 2, 3, 1])[[0, 2, 3, 1][1]]? = some 1 ∧
    ((ReverseTransposeOrder [0, 2, 3, 1])[1]?).bind (fun q => [0, 2, 3, 1][q]?) = some 1 ∧
    (forward_concat_axis [0, 2, 3, 1] 1).bind (backward_concat_axis [0, 2, 3, 1])
      = some 1 ∧
    (gather_values [0, 2, 3, 1] [2, 3]).bind (gather_values [0, 3, 1, 2]) = some [2, 3] ∧
    ((TransposeSinkingConcatForward example_concat_forward).map
        (fun r => (r.1, get_axis r.2.main_node)) = some (true, some 2) ∧
      (TransposeSinkingConcatBackward.callback example_concat_backward [0, 2, 3, 1] "t0").map
        (fun r => (r.1, get_axis r.2.main_node)) = some (true, some 1)) ∧
    ((TransposeSinkingInterpolateForward example_interpolate_forward).bind
        fun r => TransposeSinkingInterpolateBackward.callback r.2 [0, 2, 3, 1] "t0").map
      (fun r => (r.1, (r.2.main_node.inputs[3]?).bind (eval fun _ => [])))
      = some (true, some [2, 3]) :=
  have h := round_trip_axis_identity [0, 2, 3, 1] 1 [2, 3] (by decide) (by decide)
    (by decide)
  ⟨h.1, h.2.1, h.2.2.1, h.2.2.2.1,
    h.2.2.2.2.1 example_concat_forward example_concat_backward 1 2
      ⟨.transpose (.parameter 0 (some 4)) [0, 2, 3, 1], [0, 2, 3, 1], 0⟩ [0, 2, 3, 1] "t0"
      rfl rfl rfl rfl rfl rfl,
    h.2.2.2.2.2 example_interpolate_forward
      { pads_begin := [0, 1, 2, 3], pads_end := [4, 5, 6, 7] }
      (.parameter 0 (some 4)) (.parameter 1 (some 1)) (.parameter 2 (some 1))
      (.constant [2] [2, 3]) [0, 2, 3, 1] "t0" (fun _ => []) rfl rfl rfl rfl⟩

/-- C9: padding round trip.  For a valid permutation `P` and padding arrays of length
`|P|`: `reindex(invert(P), reindex(P, arr)) = arr`; the backward pass's
padding block applied to the result of the forward pass's block restores
`pads_begin` and `pads_end`; and so does the backward callback run on the
graph left by the forward pass. -/
theorem padding_round_trip (P : AxisVector) (attrs : InterpolateAttrs)
    (hP : IsPermutation P)
    (hb : attrs.pads_begin.length = P.length) (he : attrs.pads_end.length = P.length) :
    reindex (ReverseTransposeOrder P) (reindex P attrs.pads_begin) = attrs.pads_begin ∧
    reindex (ReverseTransposeOrder P) (reindex P attrs.pads_end) = attrs.pads_end ∧
    (reindex_pads P attrs).bind (reindex_pads (ReverseTransposeOrder P)) = some attrs ∧
    ∀ (g : Graph) (d i1 i2 axes : Value) (c : List Int) (nm : String),
      g.main_node.op = .Interpolate attrs →
      g.main_node.inputs = [.transpose d c, i1, i2, axes] →
      get_axis_vector_val c = P →
      ((TransposeSinkingInterpolateForward g).bind
          fun r => TransposeSinkingInterpolateBackward.callback r.2 c nm).map
        (fun r => (r.1, get_attrs r.2.main_node)) = some (true, some attrs) := by
  have hrt := reindex_pads_round_trip hP attrs hb he
  refine ⟨reindex_invert_reindex hP _ hb, reindex_invert_reindex hP _ he, hrt, ?_⟩
  intro g d i1 i2 axes c nm hop hin hconst
  cases h1 : reindex_pads P attrs with
  | none => simp [h1] at hrt
  | some attrs1 =>
    rw [h1, Option.some_bind] at hrt
    rw [interpolate_forward_eq g attrs attrs1 d i1 i2 axes c hop hin (by rw [hconst]; exact h1),
      Option.some_bind]
    rw [interpolate_backward_callback_eq _ attrs1 attrs _ _ _ _ c nm rfl rfl
      (by rw [hconst]; exact hrt)]
    simp [get_attrs]

/-- Witness of C9: `P = [0,2,3,1]`, `pads_begin = [0,1,2,3]`, `pads_end = [4,5,6,7]`. -/
theorem padding_round_trip_witness :
    reindex (ReverseTransposeOrder [0, 2, 3, 1]) (reindex [0, 2, 3, 1] [0, 1, 2, 3])
      = [0, 1, 2, 3] ∧
    reindex (ReverseTransposeOrder [0, 2, 3, 1]) (reindex [0, 2, 3, 1] [4, 5, 6, 7])
      = [4, 5, 6, 7] ∧
    (reindex_pads [0, 2, 3, 1] { pads_begin := [0, 1, 2, 3], pads_end := [4, 5, 6, 7] }).bind
        (reindex_pads (ReverseTransposeOrder [0, 2, 3, 1]))
      = some { pads_begin := [0, 1, 2, 3], pads_end := [4, 5, 6, 7] } :=
  have h := padding_round_trip [0, 2, 3, 1]
    { pads_begin := [0, 1, 2, 3], pads_end := [4, 5, 6, 7] } (by decide) rfl rfl
  ⟨h.1, h.2.1, h.2.2.1⟩

/-- C10 (fails on the code): on the specification's example `P = [0,2,3,1]` with
`pads_begin = [0,1,2,3]`, the forward pass maps axis 2 to axis 3 but stores
at slot 3 the padding of old axis 1, not of old axis 2; the backward
callback with the same order maps axis 2 to axis 1 but stores at slot 1 the
padding of old axis 3. -/
theorem interpolate_pads_not_aligned_with_axes :
    (TransposeSinkingInterpolateForward example_interpolate_forward).map
        (fun r => ((r.2.main_node.inputs[3]?).bind (eval fun _ => []),
          (get_attrs r.2.main_node).map fun at1 => (at1.pads_begin, at1.pads_begin[3]?)))
      = some (some [3, 1], some ([0, 2, 3, 1], some 1)) ∧
    (get_attrs example_interpolate_forward.main_node).map (fun at0 => at0.pads_begin[2]?)
      = some (some 2) ∧
    (TransposeSinkingInterpolateBackward.callback example_interpolate_backward
          [0, 2, 3, 1] "t0").map
        (fun r => ((r.2.main_node.inputs[3]?).bind (eval fun _ => []),
          (get_attrs r.2.main_node).map fun at1 => (at1.pads_begin, at1.pads_begin[1]?)))
      = some (some [1, 2], some ([0, 3, 1, 2], some 3)) ∧
    (get_attrs example_interpolate_backward.main_node).map (fun at0 => at0.pads_begin[2]?)
      = some (some 2) :=
  ⟨rfl, rfl, rfl, rfl⟩

end TransposeSinking
